import Mathlib

/-
  Shallow embedding of the Game of Life core from `game_of_life.cpp`
  (glowmouse/wasm_game_of_life) and verification of its specification.

  C++ `std::unordered_map<LifeCoord, CellState>` buffers are modelled as
  association lists with unique keys; iteration order of the list plays the
  role of the map's (unspecified) iteration order.  `unsigned` coordinate
  arithmetic is modelled on `Nat`/`Int` with explicit `% 2^32` where the
  source relies on unsigned wraparound.
-/

namespace GameOfLife

/-- X and Y screen resolution (`X_SCREEN` in the source). -/
def X_SCREEN : Nat := 1024

/-- See `Y_SCREEN` in the source. -/
def Y_SCREEN : Nat := 768

/-- Pixels per game-of-life cell (`PIXEL_PER_GRID`). -/
def PIXEL_PER_GRID : Nat := 2

/-- Grid width: `X_GRID = X_SCREEN / PIXEL_PER_GRID = 512`. -/
def X_GRID : Nat := X_SCREEN / PIXEL_PER_GRID

/-- Grid height: `Y_GRID = Y_SCREEN / PIXEL_PER_GRID = 384`. -/
def Y_GRID : Nat := Y_SCREEN / PIXEL_PER_GRID

/-- Modulus of C++ 32-bit `unsigned` arithmetic. -/
def UINT_MOD : Int := 2 ^ 32

/-- A game of life coordinate (`LifeCoord = std::pair<unsigned,unsigned>`).
    X = first, Y = second. -/
abbrev LifeCoord := Nat × Nat

/-- The game of life buffer (`LifeBuffer`), an `unordered_map` from
    coordinates to `CellState.value`, modelled as an association list. -/
abbrev LifeBuffer := List (LifeCoord × Nat)

/-- The double buffer (`LifeDBuffer = std::pair<LifeBuffer,LifeBuffer>`). -/
abbrev LifeDBuffer := LifeBuffer × LifeBuffer

/-- ASCII-art pattern (`Pattern = std::vector<std::string>`). -/
abbrev Pattern := List (List Char)

/-- Map lookup: `buffer.find(c)`, `some` of the stored value when present. -/
def findVal : LifeBuffer → LifeCoord → Option Nat
  | [], _ => none
  | e :: rest, c => if e.1 = c then some e.2 else findVal rest c

/-- Value of a coordinate, defaulting to 0 when absent (a fresh
    `CellState` default-constructs to 0). -/
def getD (b : LifeBuffer) (c : LifeCoord) : Nat :=
  (findVal b c).getD 0

/-- Key membership: `buffer.count(c) != 0`. -/
def hasKey (b : LifeBuffer) (c : LifeCoord) : Bool :=
  (findVal b c).isSome

/-- The statement `buffer[c].value += 1`: `operator[]` default-inserts a
    zero-valued entry when the key is absent, then the value is bumped. -/
def bump : LifeBuffer → LifeCoord → LifeBuffer
  | [], c => [(c, 1)]
  | e :: rest, c => if e.1 = c then (e.1, e.2 + 1) :: rest else e :: bump rest c

/-- The statement `buffer[c].value = v`. -/
def setVal : LifeBuffer → LifeCoord → Nat → LifeBuffer
  | [], c, v => [(c, v)]
  | e :: rest, c, v => if e.1 = c then (e.1, v) :: rest else e :: setVal rest c v

/-- A read through `operator[]`: yields the stored value (0 when freshly
    inserted) together with the possibly extended buffer. -/
def indexRead (b : LifeBuffer) (c : LifeCoord) : Nat × LifeBuffer :=
  match findVal b c with
  | some v => (v, b)
  | none => (0, b ++ [(c, 0)])

/-- The eight neighbor offsets visited by the two nested loops in
    `advanceSim` (x outer from -1 to 1, y inner, skipping (0,0)). -/
def NEIGHBOR_DELTAS : List (Int × Int) :=
  [(-1, -1), (-1, 0), (-1, 1), (0, -1), (0, 1), (1, -1), (1, 0), (1, 1)]

/-- The expression `(delta + c + dim) % dim` evaluated in C++ `unsigned`
    arithmetic: the sum wraps modulo 2^32 before the final `% dim`. -/
def wrapCoord (delta : Int) (c : Nat) (dim : Nat) : Nat :=
  ((delta + (c : Int) + (dim : Int)) % UINT_MOD).toNat % dim

/-- The eight wrapped neighbor coordinates of `c` computed by `advanceSim`. -/
def neighborTargets (c : LifeCoord) : List LifeCoord :=
  NEIGHBOR_DELTAS.map (fun d => (wrapCoord d.1 c.1 X_GRID, wrapCoord d.2 c.2 Y_GRID))

/-- The neighbor-counting pass of `advanceSim`: for every entry of the
    previous-generation buffer with nonzero value, bump each of its eight
    wrapped neighbors in the scratch buffer. -/
def countNeighbors (second : LifeBuffer) : LifeBuffer :=
  second.foldl
    (fun acc e => if e.2 = 0 then acc else (neighborTargets e.1).foldl bump acc) []

/-- The rule-application pass of `advanceSim`: rewrite every scratch entry
    in place; the `N == 2` branch reads the previous-generation buffer via
    `operator[]`, which may insert a zero entry there.  Returns the updated
    scratch buffer together with the (possibly extended) previous buffer. -/
def applyRules : LifeBuffer → LifeBuffer → LifeBuffer × LifeBuffer
  | [], second => ([], second)
  | e :: rest, second =>
    if e.2 ≤ 1 then
      ((e.1, 0) :: (applyRules rest second).1, (applyRules rest second).2)
    else if e.2 = 3 then
      ((e.1, 1) :: (applyRules rest second).1, (applyRules rest second).2)
    else if 4 ≤ e.2 then
      ((e.1, 0) :: (applyRules rest second).1, (applyRules rest second).2)
    else
      ((e.1, (indexRead second e.1).1) ::
          (applyRules rest (indexRead second e.1).2).1,
        (applyRules rest (indexRead second e.1).2).2)

/-- `advanceSim`: swap the two buffers, clear the new first buffer, count
    neighbors of the previous generation into it, then apply the rules.
    After the swap the old `first` is the previous generation (`second`),
    and the old `second`'s content is discarded by `clear()`. -/
def advanceSim (db : LifeDBuffer) : LifeDBuffer :=
  applyRules (countNeighbors db.1) db.1

/-- `advanceAge`: erase every age entry whose key is not in `current`, then
    bump the age of every key of `current`. -/
def advanceAge (age : LifeBuffer) (current : LifeBuffer) : LifeBuffer :=
  current.foldl (fun a e => bump a e.1)
    (age.filter (fun e => hasKey current e.1))

/-- One row of `dropPattern`: write each character at the wrapped
    destination, stepping `xp` by `xstep` after each write. -/
def dropRow (x y : Nat) (yp xstep : Int) : LifeBuffer → Int → List Char → LifeBuffer
  | g, _, [] => g
  | g, xp, ch :: rest =>
    dropRow x y yp xstep
      (setVal g (wrapCoord xp x X_GRID, wrapCoord yp y Y_GRID)
        (if ch = 'X' then 1 else 0))
      (xp + xstep) rest

/-- All rows of `dropPattern`, stepping `yp` by `ystep` after each row. -/
def dropRows (x y : Nat) (xstep ystep : Int) : LifeBuffer → Int → Pattern → LifeBuffer
  | g, _, [] => g
  | g, yp, row :: rest => dropRows x y xstep ystep (dropRow x y yp xstep g 0 row) (yp + ystep) rest

/-- `dropPattern`: stamp `pattern` at `(x, y)`; rotation bit 0 selects the
    horizontal stride (+1 when set, else -1), bit 1 the vertical stride. -/
def dropPattern (grid : LifeBuffer) (x y : Nat) (pattern : Pattern)
    (rotate : Nat) : LifeBuffer :=
  dropRows x y (if rotate &&& 1 ≠ 0 then 1 else -1)
    (if rotate &&& 2 ≠ 0 then 1 else -1) grid 0 pattern

/-- One frame of `LifeSingleton::update`, restricted to the simulation
    core: `advanceSim(life); advanceAge(age, life.first)`. -/
def tick (st : LifeDBuffer × LifeBuffer) : LifeDBuffer × LifeBuffer :=
  let db := advanceSim st.1
  (db, advanceAge st.2 db.1)

/-- State after `n` update frames, starting from double buffer `db0` and an
    empty age map. -/
def runState (db0 : LifeDBuffer) : Nat → LifeDBuffer × LifeBuffer
  | 0 => (db0, [])
  | n + 1 => tick (runState db0 n)

/-- Number of occurrences of `c` in a list of coordinates (used to avoid
    juggling `BEq` instances of `List.count`). -/
def coordCount (l : List LifeCoord) (c : LifeCoord) : Nat :=
  l.countP (fun d => decide (d = c))

/-- Total contribution of the entries of `b` to the neighbor count of `c`:
    each nonzero entry contributes once per occurrence of `c` among its
    eight wrapped neighbor targets. -/
def contribSum (b : LifeBuffer) (c : LifeCoord) : Nat :=
  (b.map (fun e => if e.2 = 0 then 0 else coordCount (neighborTargets e.1) c)).sum

/-- Both components of a coordinate lie on the 512 x 384 grid. -/
def inGrid (c : LifeCoord) : Prop := c.1 < 512 ∧ c.2 < 384

/-- Number of live (nonzero-valued) cells of `b` among the eight toroidal
    neighbors of `c`. -/
def liveNbrs (b : LifeBuffer) (c : LifeCoord) : Nat :=
  (neighborTargets c).countP (fun d => decide (getD b d ≠ 0))

/-- Conway rule as written in the source's rule pass: the stored value for a
    scratch entry with count `n` and prior value `p`. -/
def ruleVal (n p : Nat) : Nat :=
  if n ≤ 1 then 0 else if n = 3 then 1 else if 4 ≤ n then 0 else p

instance instDecidableInGrid (c : LifeCoord) : Decidable (inGrid c) :=
  inferInstanceAs (Decidable (c.1 < 512 ∧ c.2 < 384))

/-- Horizontal stride of `dropPattern`, selected by rotation bit 0. -/
def strideX (rotate : Nat) : Int := if rotate &&& 1 ≠ 0 then 1 else -1

/-- Vertical stride of `dropPattern`, selected by rotation bit 1. -/
def strideY (rotate : Nat) : Int := if rotate &&& 2 ≠ 0 then 1 else -1

/-- The destination claimed for the pattern character at row `r`, column
    `k`: the mathematical non-negative residues of `x + sx*k` and
    `y + sy*r`. -/
def mdest (x y : Nat) (sx sy : Int) (r k : Nat) : LifeCoord :=
  ((((x : Int) + sx * k) % 512).toNat, (((y : Int) + sy * r) % 384).toNat)

/-- Point reflection through `(x, y)` modulo the grid dimensions. -/
def reflectCoord (x y : Nat) (c : LifeCoord) : LifeCoord :=
  (((2 * (x : Int) - c.1) % 512).toNat, ((2 * (y : Int) - c.2) % 384).toNat)

/-- Consecutive generations (ending at generation `n`) during which `c` has
    been a key of the current buffer of `runState db0`. -/
def keyStreak (db0 : LifeDBuffer) (c : LifeCoord) : Nat → Nat
  | 0 => 0
  | n + 1 =>
    if hasKey (runState db0 (n + 1)).1.1 c then keyStreak db0 c n + 1 else 0

/-- The four coordinates of a 2x2 block anchored at `(x, y)`. -/
def blockCoords (x y : Nat) : List LifeCoord :=
  [(x, y), (x + 1, y), (x, y + 1), (x + 1, y + 1)]

/-- A buffer holding a 2x2 block of live cells anchored at `(x, y)`. -/
def blockBuf (x y : Nat) : LifeBuffer :=
  [((x, y), 1), ((x + 1, y), 1), ((x, y + 1), 1), ((x + 1, y + 1), 1)]

/-- A vertical blinker: three live cells in a column. -/
def blinkerBuf : LifeBuffer := [((5, 5), 1), ((5, 6), 1), ((5, 7), 1)]

/-- Double buffer holding the blinker as the current generation. -/
def blinkerDB : LifeDBuffer := (blinkerBuf, [])

/-- A single isolated live cell. -/
def singleCellDB : LifeDBuffer := ([((5, 5), 1)], [])

/-! ### Basic lemmas about buffer operations -/

theorem findVal_bump_self (b : LifeBuffer) (c : LifeCoord) :
    findVal (bump b c) c = some (getD b c + 1) := by
  induction b with
  | nil => simp [bump, findVal, getD]
  | cons e rest ih =>
    by_cases h : e.1 = c
    · simp [bump, findVal, h, getD]
    · simp [bump, findVal, h, getD] at ih ⊢
      exact ih

theorem findVal_bump_ne (b : LifeBuffer) {c d : LifeCoord} (h : d ≠ c) :
    findVal (bump b c) d = findVal b d := by
  induction b with
  | nil => simp [bump, findVal, Ne.symm h]
  | cons e rest ih =>
    by_cases he : e.1 = c
    · simp [bump, findVal, he, Ne.symm h]
    · simp only [bump, if_neg he]
      by_cases hd : e.1 = d <;> simp [findVal, hd, ih]

theorem hasKey_bump (b : LifeBuffer) (c d : LifeCoord) :
    hasKey (bump b c) d = (hasKey b d || d = c) := by
  by_cases h : d = c
  · subst h
    simp [hasKey, findVal_bump_self]
  · simp [hasKey, findVal_bump_ne b h, h]

theorem findVal_setVal_self (b : LifeBuffer) (c : LifeCoord) (v : Nat) :
    findVal (setVal b c v) c = some v := by
  induction b with
  | nil => simp [setVal, findVal]
  | cons e rest ih =>
    by_cases h : e.1 = c <;> simp [setVal, findVal, h, ih]

theorem findVal_setVal_ne (b : LifeBuffer) {c d : LifeCoord} (v : Nat) (h : d ≠ c) :
    findVal (setVal b c v) d = findVal b d := by
  induction b with
  | nil => simp [setVal, findVal, Ne.symm h]
  | cons e rest ih =>
    by_cases he : e.1 = c
    · simp [setVal, findVal, he, Ne.symm h]
    · simp only [setVal, if_neg he]
      by_cases hd : e.1 = d <;> simp [findVal, hd, ih]

theorem indexRead_fst (b : LifeBuffer) (c : LifeCoord) :
    (indexRead b c).1 = getD b c := by
  unfold indexRead getD
  cases h : findVal b c <;> simp [h]

theorem findVal_append_of_some {b : LifeBuffer} {d : LifeCoord} {w : Nat}
    (c : LifeCoord) (v : Nat) (h : findVal b d = some w) :
    findVal (b ++ [(c, v)]) d = some w := by
  induction b with
  | nil => simp [findVal] at h
  | cons e rest ih =>
    by_cases he : e.1 = d <;> simp [findVal, he] at h ⊢
    · exact h
    · exact ih h

theorem findVal_append_of_none {b : LifeBuffer} {d : LifeCoord}
    (c : LifeCoord) (v : Nat) (h : findVal b d = none) :
    findVal (b ++ [(c, v)]) d = if c = d then some v else none := by
  induction b with
  | nil => simp [findVal]
  | cons e rest ih =>
    by_cases he : e.1 = d <;> simp [findVal, he] at h ⊢
    exact ih h

theorem getD_indexRead (b : LifeBuffer) (c d : LifeCoord) :
    getD (indexRead b c).2 d = getD b d := by
  unfold indexRead
  cases h : findVal b c with
  | some v => simp
  | none =>
    simp only []
    cases hd : findVal b d with
    | some w => simp [getD, findVal_append_of_some c 0 hd, hd]
    | none =>
      rw [getD, getD, hd, findVal_append_of_none c 0 hd]
      by_cases hcd : c = d <;> simp [hcd]

theorem hasKey_indexRead (b : LifeBuffer) (c d : LifeCoord) :
    hasKey (indexRead b c).2 d = (hasKey b d || d = c) := by
  unfold indexRead
  cases h : findVal b c with
  | some v =>
    by_cases hcd : d = c
    · subst hcd
      simp [hasKey, h]
    · simp [hasKey, hcd]
  | none =>
    simp only []
    cases hd : findVal b d with
    | some w => simp [hasKey, findVal_append_of_some c 0 hd, hd]
    | none =>
      rw [hasKey, hasKey, hd, findVal_append_of_none c 0 hd]
      by_cases hcd : c = d
      · subst hcd
        simp
      · have hne : ¬d = c := fun hh => hcd hh.symm
        simp [hcd, hne]

theorem coordCount_nil (c : LifeCoord) : coordCount [] c = 0 := rfl

theorem coordCount_cons (a : LifeCoord) (l : List LifeCoord) (c : LifeCoord) :
    coordCount (a :: l) c = coordCount l c + (if a = c then 1 else 0) := by
  unfold coordCount
  rw [List.countP_cons]
  by_cases h : a = c <;> simp [h]

theorem coordCount_pos_iff {l : List LifeCoord} {c : LifeCoord} :
    0 < coordCount l c ↔ c ∈ l := by
  unfold coordCount
  rw [List.countP_pos_iff]
  constructor
  · rintro ⟨a, ha, hc⟩
    simp at hc
    exact hc ▸ ha
  · intro h
    exact ⟨c, h, by simp⟩

theorem coordCount_eq_zero_of_not_mem {l : List LifeCoord} {c : LifeCoord}
    (h : c ∉ l) : coordCount l c = 0 := by
  by_contra hne
  exact h (coordCount_pos_iff.1 (Nat.pos_of_ne_zero hne))

theorem coordCount_eq_one_of_nodup_mem {l : List LifeCoord} {c : LifeCoord}
    (hl : l.Nodup) (h : c ∈ l) : coordCount l c = 1 := by
  induction l with
  | nil => simp at h
  | cons a t ih =>
    rw [List.nodup_cons] at hl
    rw [coordCount_cons]
    rcases List.mem_cons.1 h with hc | hc
    · subst hc
      rw [coordCount_eq_zero_of_not_mem hl.1, if_pos rfl]
    · have hac : ¬a = c := fun hh => hl.1 (hh ▸ hc)
      rw [ih hl.2 hc, if_neg hac]

theorem getD_foldl_bump (l : List LifeCoord) (acc : LifeBuffer) (c : LifeCoord) :
    getD (l.foldl bump acc) c = getD acc c + coordCount l c := by
  induction l generalizing acc with
  | nil => simp [coordCount_nil]
  | cons a t ih =>
    rw [List.foldl_cons, ih, coordCount_cons]
    by_cases h : c = a
    · subst h
      simp [getD, findVal_bump_self]
      omega
    · have hac : ¬a = c := fun hh => h hh.symm
      simp [getD, findVal_bump_ne acc h, hac]

theorem hasKey_foldl_bump (l : List LifeCoord) (acc : LifeBuffer) (c : LifeCoord) :
    hasKey (l.foldl bump acc) c = (hasKey acc c || l.contains c) := by
  induction l generalizing acc with
  | nil => simp
  | cons a t ih =>
    rw [List.foldl_cons, ih, hasKey_bump]
    by_cases h : c = a <;> simp [h]

theorem findVal_eq_some_of_hasKey {b : LifeBuffer} {c : LifeCoord}
    (h : hasKey b c = true) : findVal b c = some (getD b c) := by
  unfold hasKey at h
  cases hf : findVal b c with
  | some v => simp [getD, hf]
  | none => rw [hf] at h; simp at h

theorem findVal_eq_none_of_not_hasKey {b : LifeBuffer} {c : LifeCoord}
    (h : hasKey b c = false) : findVal b c = none := by
  unfold hasKey at h
  cases hf : findVal b c with
  | some v => rw [hf] at h; simp at h
  | none => rfl

theorem mem_of_findVal_eq_some {b : LifeBuffer} {c : LifeCoord} {v : Nat}
    (h : findVal b c = some v) : (c, v) ∈ b := by
  induction b with
  | nil => simp [findVal] at h
  | cons e rest ih =>
    rcases e with ⟨k, w⟩
    by_cases he : k = c
    · subst he
      simp [findVal] at h
      subst h
      exact List.mem_cons_self _ _
    · simp [findVal, he] at h
      exact List.mem_cons_of_mem _ (ih h)

theorem findVal_eq_none_of_not_mem_keys {b : LifeBuffer} {c : LifeCoord}
    (h : c ∉ b.map Prod.fst) : findVal b c = none := by
  induction b with
  | nil => rfl
  | cons e rest ih =>
    rw [List.map_cons] at h
    have h1 : ¬e.1 = c := fun hh => h (by rw [hh]; exact List.mem_cons_self _ _)
    have h2 : c ∉ rest.map Prod.fst := fun hh => h (List.mem_cons_of_mem _ hh)
    simp [findVal, h1, ih h2]

/-! ### Wrap arithmetic lemmas -/

theorem wrapCoord_lt (d : Int) (c : Nat) {dim : Nat} (h : 0 < dim) :
    wrapCoord d c dim < dim :=
  Nat.mod_lt _ h

theorem wrapCoord_512 (d : Int) (c : Nat) :
    wrapCoord d c 512 = ((d + c) % 512).toNat := by
  simp only [wrapCoord, UINT_MOD]
  omega

theorem wrapCoord_neg_one_512 {c : Nat} :
    wrapCoord (-1) c 512 = (c + 511) % 512 := by
  simp only [wrapCoord, UINT_MOD]
  omega

theorem wrapCoord_zero_512 {c : Nat} (h : c < 512) : wrapCoord 0 c 512 = c := by
  simp only [wrapCoord, UINT_MOD]
  omega

theorem wrapCoord_one_512 {c : Nat} :
    wrapCoord 1 c 512 = (c + 1) % 512 := by
  simp only [wrapCoord, UINT_MOD]
  omega

theorem wrapCoord_neg_one_384 {c : Nat} (h : c < 384) :
    wrapCoord (-1) c 384 = (c + 383) % 384 := by
  simp only [wrapCoord, UINT_MOD]
  omega

theorem wrapCoord_zero_384 {c : Nat} (h : c < 384) : wrapCoord 0 c 384 = c := by
  simp only [wrapCoord, UINT_MOD]
  omega

theorem wrapCoord_one_384 {c : Nat} (h : c < 384) :
    wrapCoord 1 c 384 = (c + 1) % 384 := by
  simp only [wrapCoord, UINT_MOD]
  omega

theorem wrapCoord_384_range {d : Int} {c : Nat}
    (h1 : 0 ≤ d + (c : Int) + 384) (h2 : d + (c : Int) + 384 < UINT_MOD) :
    wrapCoord d c 384 = ((d + c) % 384).toNat := by
  unfold wrapCoord
  have h384 : ((384 : Nat) : Int) = 384 := rfl
  rw [h384, Int.emod_eq_of_lt h1 h2]
  have key : (((d + (c : Int) + 384).toNat % 384 : Nat) : Int) =
      (d + (c : Int)) % 384 := by
    push_cast
    rw [Int.toNat_of_nonneg h1]
    omega
  have h3 : 0 ≤ (d + (c : Int)) % 384 := Int.emod_nonneg _ (by norm_num)
  omega

theorem wrapCoord_384_small {d : Int} {c : Nat}
    (hd : d = -1 ∨ d = 0 ∨ d = 1) (hc : c < 384) :
    wrapCoord d c 384 = ((d + c) % 384).toNat := by
  rcases hd with hd | hd | hd <;> subst hd <;>
    simp only [wrapCoord, UINT_MOD] <;> omega

theorem X_GRID_eq : X_GRID = 512 := rfl

theorem Y_GRID_eq : Y_GRID = 384 := rfl

/-! ### Key-set lemmas -/

theorem hasKey_iff_mem_keys (b : LifeBuffer) (c : LifeCoord) :
    hasKey b c = true ↔ c ∈ b.map Prod.fst := by
  induction b with
  | nil => simp [hasKey, findVal]
  | cons e rest ih =>
    by_cases he : e.1 = c
    · simp [hasKey, findVal, he]
    · simp only [hasKey, findVal, if_neg he, List.map_cons, List.mem_cons]
      rw [hasKey] at ih
      constructor
      · intro h
        exact Or.inr (ih.1 h)
      · rintro (h | h)
        · exact absurd h.symm he
        · exact ih.2 h

theorem keys_bump (b : LifeBuffer) (c : LifeCoord) :
    (bump b c).map Prod.fst =
      if hasKey b c then b.map Prod.fst else b.map Prod.fst ++ [c] := by
  induction b with
  | nil => simp [bump, hasKey, findVal]
  | cons e rest ih =>
    by_cases he : e.1 = c
    · simp [bump, hasKey, findVal, he]
    · simp only [bump, if_neg he, List.map_cons, ih, hasKey, findVal, he, if_false]
      by_cases hk : (findVal rest c).isSome <;> simp [hk]

theorem nodupKeys_bump {b : LifeBuffer} (c : LifeCoord)
    (h : (b.map Prod.fst).Nodup) : ((bump b c).map Prod.fst).Nodup := by
  rw [keys_bump]
  by_cases hk : hasKey b c
  · simp [hk, h]
  · simp only [hk, if_false, Bool.false_eq_true]
    rw [List.nodup_append]
    refine ⟨h, List.nodup_singleton c, ?_⟩
    intro a ha hc
    simp at hc
    subst hc
    exact absurd ((hasKey_iff_mem_keys b a).2 ha) (by simpa using hk)

theorem nodupKeys_foldl_bump (l : List LifeCoord) {acc : LifeBuffer}
    (h : (acc.map Prod.fst).Nodup) :
    ((l.foldl bump acc).map Prod.fst).Nodup := by
  induction l generalizing acc with
  | nil => exact h
  | cons a t ih => exact ih (nodupKeys_bump a h)

theorem nodupKeys_countNeighbors (b : LifeBuffer) :
    ((countNeighbors b).map Prod.fst).Nodup := by
  unfold countNeighbors
  suffices hgen : ∀ (l : List (LifeCoord × Nat)) (acc : LifeBuffer),
      (acc.map Prod.fst).Nodup →
      ((l.foldl (fun acc e =>
        if e.2 = 0 then acc else (neighborTargets e.1).foldl bump acc) acc).map
          Prod.fst).Nodup by
    exact hgen b [] (by simp)
  intro l
  induction l with
  | nil => intro acc h; exact h
  | cons e t ih =>
    intro acc h
    rw [List.foldl_cons]
    by_cases he : e.2 = 0
    · simp only [he, if_pos rfl]
      exact ih acc h
    · simp only [if_neg he]
      exact ih _ (nodupKeys_foldl_bump _ h)

/-! ### Characterization of the neighbor-counting pass -/

theorem getD_countStep (l : List (LifeCoord × Nat)) (acc : LifeBuffer)
    (c : LifeCoord) :
    getD (l.foldl (fun acc e =>
        if e.2 = 0 then acc else (neighborTargets e.1).foldl bump acc) acc) c
      = getD acc c + contribSum l c := by
  induction l generalizing acc with
  | nil => simp [contribSum]
  | cons e t ih =>
    rw [List.foldl_cons, ih]
    by_cases h : e.2 = 0
    · simp [contribSum, h]
    · simp [contribSum, h, getD_foldl_bump]
      omega

theorem getD_countNeighbors (b : LifeBuffer) (c : LifeCoord) :
    getD (countNeighbors b) c = contribSum b c := by
  unfold countNeighbors
  rw [getD_countStep]
  simp [getD, findVal]

theorem hasKey_countStep (l : List (LifeCoord × Nat)) (acc : LifeBuffer)
    (c : LifeCoord) :
    hasKey (l.foldl (fun acc e =>
        if e.2 = 0 then acc else (neighborTargets e.1).foldl bump acc) acc) c
      = true ↔ (hasKey acc c = true ∨ 0 < contribSum l c) := by
  induction l generalizing acc with
  | nil => simp [contribSum]
  | cons e t ih =>
    rw [List.foldl_cons, ih]
    by_cases h : e.2 = 0
    · simp [contribSum, h]
    · have hcm : ((neighborTargets e.1).contains c = true) ↔
          c ∈ neighborTargets e.1 := by simp
      simp only [if_neg h, hasKey_foldl_bump, contribSum, List.map_cons,
        List.sum_cons, Bool.or_eq_true, hcm]
      constructor
      · rintro (⟨hk | hm⟩ | hpos)
        · exact Or.inl hk
        · right
          have := coordCount_pos_iff.2 hm
          omega
        · right
          omega
      · rintro (hk | hpos)
        · exact Or.inl (Or.inl hk)
        · by_cases hm : c ∈ neighborTargets e.1
          · exact Or.inl (Or.inr hm)
          · right
            have := coordCount_eq_zero_of_not_mem hm
            omega

theorem hasKey_countNeighbors (b : LifeBuffer) (c : LifeCoord) :
    hasKey (countNeighbors b) c = true ↔ 0 < contribSum b c := by
  unfold countNeighbors
  rw [hasKey_countStep]
  simp [hasKey, findVal]

theorem findVal_countNeighbors (b : LifeBuffer) (c : LifeCoord) :
    findVal (countNeighbors b) c =
      if contribSum b c = 0 then none else some (contribSum b c) := by
  by_cases h : contribSum b c = 0
  · have hk : hasKey (countNeighbors b) c = false := by
      rcases Bool.eq_false_or_eq_true (hasKey (countNeighbors b) c) with ht | hf
      · exact absurd ((hasKey_countNeighbors b c).1 ht) (by omega)
      · exact hf
    simp [h, findVal_eq_none_of_not_hasKey hk]
  · have hk : hasKey (countNeighbors b) c = true :=
      (hasKey_countNeighbors b c).2 (by omega)
    rw [findVal_eq_some_of_hasKey hk, getD_countNeighbors]
    simp [h]

/-! ### Neighbor geometry on the torus -/

theorem neighborTargets_inGrid {c1 c2 : Nat} (h1 : c1 < 512) (h2 : c2 < 384) :
    neighborTargets (c1, c2) =
      [((c1 + 511) % 512, (c2 + 383) % 384), ((c1 + 511) % 512, c2),
       ((c1 + 511) % 512, (c2 + 1) % 384),
       (c1, (c2 + 383) % 384), (c1, (c2 + 1) % 384),
       ((c1 + 1) % 512, (c2 + 383) % 384), ((c1 + 1) % 512, c2),
       ((c1 + 1) % 512, (c2 + 1) % 384)] := by
  simp [neighborTargets, NEIGHBOR_DELTAS, X_GRID_eq, Y_GRID_eq,
    wrapCoord_neg_one_512, wrapCoord_zero_512 h1, wrapCoord_one_512,
    wrapCoord_neg_one_384 h2, wrapCoord_zero_384 h2, wrapCoord_one_384 h2]

theorem neighborTargets_nodup {c1 c2 : Nat} (h1 : c1 < 512) (h2 : c2 < 384) :
    (neighborTargets (c1, c2)).Nodup := by
  rw [neighborTargets_inGrid h1 h2]
  simp only [List.nodup_cons, List.mem_cons, List.mem_singleton,
    List.not_mem_nil, List.nodup_nil, and_true, not_or, Prod.mk.injEq,
    not_and, true_implies, not_false_eq_true]
  omega

theorem inGrid_of_mem_neighborTargets {c d : LifeCoord}
    (h : d ∈ neighborTargets c) : inGrid d := by
  rcases List.mem_map.1 h with ⟨delta, _, hfd⟩
  subst hfd
  exact ⟨wrapCoord_lt _ _ (by decide), wrapCoord_lt _ _ (by decide)⟩

theorem mem_neighborTargets_of_mem {c1 c2 : Nat} {d : LifeCoord}
    (h1 : c1 < 512) (h2 : c2 < 384) (h : d ∈ neighborTargets (c1, c2)) :
    (c1, c2) ∈ neighborTargets d := by
  rw [neighborTargets_inGrid h1 h2] at h
  simp only [List.mem_cons, List.not_mem_nil, or_false] at h
  rcases h with h | h | h | h | h | h | h | h <;> subst h
  · refine List.mem_map.2 ⟨((1 : Int), (1 : Int)), by simp [NEIGHBOR_DELTAS], ?_⟩
    simp only [X_GRID_eq, Y_GRID_eq]
    rw [Prod.mk.injEq]
    refine ⟨?_, ?_⟩
    · rw [wrapCoord_512]; omega
    · rw [wrapCoord_384_small (by norm_num) (Nat.mod_lt _ (by norm_num))]
      omega
  · refine List.mem_map.2 ⟨((1 : Int), (0 : Int)), by simp [NEIGHBOR_DELTAS], ?_⟩
    simp only [X_GRID_eq, Y_GRID_eq]
    rw [Prod.mk.injEq]
    refine ⟨?_, ?_⟩
    · rw [wrapCoord_512]; omega
    · rw [wrapCoord_384_small (by norm_num) h2]; omega
  · refine List.mem_map.2 ⟨((1 : Int), (-1 : Int)), by simp [NEIGHBOR_DELTAS], ?_⟩
    simp only [X_GRID_eq, Y_GRID_eq]
    rw [Prod.mk.injEq]
    refine ⟨?_, ?_⟩
    · rw [wrapCoord_512]; omega
    · rw [wrapCoord_384_small (by norm_num) (Nat.mod_lt _ (by norm_num))]
      omega
  · refine List.mem_map.2 ⟨((0 : Int), (1 : Int)), by simp [NEIGHBOR_DELTAS], ?_⟩
    simp only [X_GRID_eq, Y_GRID_eq]
    rw [Prod.mk.injEq]
    refine ⟨?_, ?_⟩
    · rw [wrapCoord_512]; omega
    · rw [wrapCoord_384_small (by norm_num) (Nat.mod_lt _ (by norm_num))]
      omega
  · refine List.mem_map.2 ⟨((0 : Int), (-1 : Int)), by simp [NEIGHBOR_DELTAS], ?_⟩
    simp only [X_GRID_eq, Y_GRID_eq]
    rw [Prod.mk.injEq]
    refine ⟨?_, ?_⟩
    · rw [wrapCoord_512]; omega
    · rw [wrapCoord_384_small (by norm_num) (Nat.mod_lt _ (by norm_num))]
      omega
  · refine List.mem_map.2 ⟨((-1 : Int), (1 : Int)), by simp [NEIGHBOR_DELTAS], ?_⟩
    simp only [X_GRID_eq, Y_GRID_eq]
    rw [Prod.mk.injEq]
    refine ⟨?_, ?_⟩
    · rw [wrapCoord_512]; omega
    · rw [wrapCoord_384_small (by norm_num) (Nat.mod_lt _ (by norm_num))]
      omega
  · refine List.mem_map.2 ⟨((-1 : Int), (0 : Int)), by simp [NEIGHBOR_DELTAS], ?_⟩
    simp only [X_GRID_eq, Y_GRID_eq]
    rw [Prod.mk.injEq]
    refine ⟨?_, ?_⟩
    · rw [wrapCoord_512]; omega
    · rw [wrapCoord_384_small (by norm_num) h2]; omega
  · refine List.mem_map.2 ⟨((-1 : Int), (-1 : Int)), by simp [NEIGHBOR_DELTAS], ?_⟩
    simp only [X_GRID_eq, Y_GRID_eq]
    rw [Prod.mk.injEq]
    refine ⟨?_, ?_⟩
    · rw [wrapCoord_512]; omega
    · rw [wrapCoord_384_small (by norm_num) (Nat.mod_lt _ (by norm_num))]
      omega

theorem mem_neighborTargets_swap {c d : LifeCoord} (hc : inGrid c)
    (h : d ∈ neighborTargets c) : c ∈ neighborTargets d := by
  obtain ⟨c1, c2⟩ := c
  exact mem_neighborTargets_of_mem hc.1 hc.2 h

theorem coordCount_neighborTargets {c : LifeCoord} (hc : inGrid c)
    (d : LifeCoord) :
    coordCount (neighborTargets c) d = if d ∈ neighborTargets c then 1 else 0 := by
  obtain ⟨c1, c2⟩ := c
  by_cases h : d ∈ neighborTargets (c1, c2)
  · rw [if_pos h]
    exact coordCount_eq_one_of_nodup_mem (neighborTargets_nodup hc.1 hc.2) h
  · rw [if_neg h]
    exact coordCount_eq_zero_of_not_mem h

/-! ### From contribution sums to live-neighbor counts -/

theorem countP_pointwise {l : List LifeCoord} (hl : l.Nodup)
    {p q : LifeCoord → Bool} {a : LifeCoord}
    (hpq : ∀ d, d ≠ a → p d = q d) (hqa : q a = false) :
    l.countP p = l.countP q + (if a ∈ l ∧ p a = true then 1 else 0) := by
  induction l with
  | nil => simp
  | cons e t ih =>
    rw [List.nodup_cons] at hl
    rw [List.countP_cons, List.countP_cons]
    by_cases he : e = a
    · subst he
      have ht : t.countP p = t.countP q :=
        List.countP_congr fun d hd => by
          rw [hpq d (fun hde => hl.1 (hde ▸ hd))]
      rw [ht, hqa]
      by_cases hp : p e = true <;> simp [hp, List.mem_cons]
    · rw [ih hl.2, hpq e he]
      have hmem : (a ∈ e :: t ∧ p a = true) ↔ (a ∈ t ∧ p a = true) := by
        constructor
        · rintro ⟨ha, hp⟩
          rcases List.mem_cons.1 ha with h | h
          · exact absurd h.symm he
          · exact ⟨h, hp⟩
        · rintro ⟨ha, hp⟩
          exact ⟨List.mem_cons_of_mem _ ha, hp⟩
      rw [if_congr hmem rfl rfl]
      omega

theorem getD_cons_self (e : LifeCoord × Nat) (t : LifeBuffer) :
    getD (e :: t) e.1 = e.2 := by
  simp [getD, findVal]

theorem getD_cons_ne (e : LifeCoord × Nat) (t : LifeBuffer) {d : LifeCoord}
    (h : d ≠ e.1) : getD (e :: t) d = getD t d := by
  rw [getD, getD]
  simp only [findVal]
  rw [if_neg (Ne.symm h)]

theorem contribSum_eq_liveNbrs {b : LifeBuffer}
    (hnd : (b.map Prod.fst).Nodup) (hin : ∀ e ∈ b, inGrid e.1)
    {c : LifeCoord} (hc : inGrid c) :
    contribSum b c = liveNbrs b c := by
  obtain ⟨c1, c2⟩ := c
  induction b with
  | nil =>
    simp [contribSum, liveNbrs, getD, findVal]
  | cons e t ih =>
    rw [List.map_cons, List.nodup_cons] at hnd
    have hint : ∀ x ∈ t, inGrid x.1 :=
      fun x hx => hin x (List.mem_cons_of_mem _ hx)
    have hine : inGrid e.1 := hin e (List.mem_cons_self _ _)
    have hq : (fun d => decide (getD t d ≠ 0)) e.1 = false := by
      have hnone : findVal t e.1 = none := findVal_eq_none_of_not_mem_keys hnd.1
      simp [getD, hnone]
    have hpq : ∀ d, d ≠ e.1 →
        (fun d => decide (getD (e :: t) d ≠ 0)) d =
          (fun d => decide (getD t d ≠ 0)) d := by
      intro d hd
      simp only [getD_cons_ne e t hd]
    have hstep := countP_pointwise (neighborTargets_nodup hc.1 hc.2) hpq hq
    have hrhs : liveNbrs (e :: t) (c1, c2) = liveNbrs t (c1, c2) +
        (if e.1 ∈ neighborTargets (c1, c2) ∧
            decide (getD (e :: t) e.1 ≠ 0) = true then 1 else 0) := by
      rw [liveNbrs, liveNbrs]
      exact hstep
    have hlhs : contribSum (e :: t) (c1, c2) =
        (if e.2 = 0 then 0 else coordCount (neighborTargets e.1) (c1, c2)) +
          contribSum t (c1, c2) := by
      simp [contribSum]
    rw [hrhs, hlhs, ih hnd.2 hint]
    have hdec : (decide (getD (e :: t) e.1 ≠ 0) = true) ↔ ¬e.2 = 0 := by
      rw [getD_cons_self]
      simp
    by_cases hz : e.2 = 0
    · rw [if_pos hz, if_neg (by rintro ⟨_, hp⟩; exact (hdec.1 hp) hz)]
      omega
    · rw [if_neg hz, coordCount_neighborTargets hine]
      have hsym : (c1, c2) ∈ neighborTargets e.1 ↔
          e.1 ∈ neighborTargets (c1, c2) :=
        ⟨fun hh => mem_neighborTargets_swap hine hh,
         fun hh => mem_neighborTargets_swap hc hh⟩
      by_cases hm : (c1, c2) ∈ neighborTargets e.1
      · rw [if_pos hm, if_pos ⟨hsym.1 hm, hdec.2 hz⟩]
        omega
      · rw [if_neg hm, if_neg (fun hh => hm (hsym.2 hh.1))]
        omega

/-! ### The rule-application pass -/

theorem applyRules_fst_findVal (l : LifeBuffer) (s : LifeBuffer) (c : LifeCoord) :
    findVal (applyRules l s).1 c =
      (findVal l c).map (fun n => ruleVal n (getD s c)) := by
  induction l generalizing s with
  | nil => simp [applyRules, findVal]
  | cons e rest ih =>
    simp only [applyRules]
    by_cases h1 : e.2 ≤ 1
    · rw [if_pos h1]
      simp only [findVal]
      by_cases hc : e.1 = c
      · rw [if_pos hc, if_pos hc]
        simp [ruleVal, h1]
      · rw [if_neg hc, if_neg hc, ih s]
    · rw [if_neg h1]
      by_cases h3 : e.2 = 3
      · rw [if_pos h3]
        simp only [findVal]
        by_cases hc : e.1 = c
        · rw [if_pos hc, if_pos hc]
          simp [ruleVal, h1, h3]
        · rw [if_neg hc, if_neg hc, ih s]
      · rw [if_neg h3]
        by_cases h4 : 4 ≤ e.2
        · rw [if_pos h4]
          simp only [findVal]
          by_cases hc : e.1 = c
          · rw [if_pos hc, if_pos hc]
            simp [ruleVal, h1, h3, h4]
          · rw [if_neg hc, if_neg hc, ih s]
        · rw [if_neg h4]
          simp only [findVal]
          by_cases hc : e.1 = c
          · rw [if_pos hc, if_pos hc, indexRead_fst, hc]
            simp [ruleVal, h1, h3, h4]
          · rw [if_neg hc, if_neg hc, ih ((indexRead s e.1).2),
              getD_indexRead]

theorem applyRules_snd_getD (l : LifeBuffer) (s : LifeBuffer) (d : LifeCoord) :
    getD (applyRules l s).2 d = getD s d := by
  induction l generalizing s with
  | nil => simp [applyRules]
  | cons e rest ih =>
    simp only [applyRules]
    by_cases h1 : e.2 ≤ 1
    · rw [if_pos h1]
      exact ih s
    · rw [if_neg h1]
      by_cases h3 : e.2 = 3
      · rw [if_pos h3]
        exact ih s
      · rw [if_neg h3]
        by_cases h4 : 4 ≤ e.2
        · rw [if_pos h4]
          exact ih s
        · rw [if_neg h4]
          rw [ih ((indexRead s e.1).2), getD_indexRead]

theorem applyRules_snd_hasKey (l : LifeBuffer) (s : LifeBuffer) (d : LifeCoord) :
    hasKey (applyRules l s).2 d = true ↔
      hasKey s d = true ∨ (d, 2) ∈ l := by
  induction l generalizing s with
  | nil => simp [applyRules]
  | cons e rest ih =>
    simp only [applyRules]
    have hne_of_val : ∀ m : Nat, e.2 ≠ m → ((d, m) ∈ e :: rest ↔ (d, m) ∈ rest) := by
      intro m hm
      rw [List.mem_cons]
      constructor
      · rintro (hh | hh)
        · exact absurd (congrArg Prod.snd hh).symm hm
        · exact hh
      · exact fun hh => Or.inr hh
    by_cases h1 : e.2 ≤ 1
    · rw [if_pos h1, ih s, hne_of_val 2 (by omega)]
    · rw [if_neg h1]
      by_cases h3 : e.2 = 3
      · rw [if_pos h3, ih s, hne_of_val 2 (by omega)]
      · rw [if_neg h3]
        by_cases h4 : 4 ≤ e.2
        · rw [if_pos h4, ih s, hne_of_val 2 (by omega)]
        · rw [if_neg h4]
          have he2 : e.2 = 2 := by omega
          rw [ih ((indexRead s e.1).2)]
          rw [show hasKey (indexRead s e.1).2 d = (hasKey s d || d = e.1) from
            hasKey_indexRead s e.1 d]
          constructor
          · rintro (hk | hm)
            · rcases Bool.or_eq_true_iff.1 hk with hk | hk
              · exact Or.inl hk
              · right
                have hde : d = e.1 := of_decide_eq_true hk
                rw [List.mem_cons]
                left
                rw [hde, ← he2]
            · exact Or.inr (List.mem_cons_of_mem _ hm)
          · rintro (hk | hm)
            · exact Or.inl (by simp [hk])
            · rcases List.mem_cons.1 hm with hh | hh
              · left
                have : d = e.1 := (congrArg Prod.fst hh)
                simp [this]
              · exact Or.inr hh

theorem applyRules_fst_keys (l : LifeBuffer) (s : LifeBuffer) :
    (applyRules l s).1.map Prod.fst = l.map Prod.fst := by
  induction l generalizing s with
  | nil => simp [applyRules]
  | cons e rest ih =>
    simp only [applyRules]
    by_cases h1 : e.2 ≤ 1
    · rw [if_pos h1]
      simp [ih s]
    · rw [if_neg h1]
      by_cases h3 : e.2 = 3
      · rw [if_pos h3]
        simp [ih s]
      · rw [if_neg h3]
        by_cases h4 : 4 ≤ e.2
        · rw [if_pos h4]
          simp [ih s]
        · rw [if_neg h4]
          simp [ih ((indexRead s e.1).2)]

theorem getD_le_one_of_entries {b : LifeBuffer}
    (h : ∀ e ∈ b, e.2 ≤ 1) (d : LifeCoord) : getD b d ≤ 1 := by
  cases hf : findVal b d with
  | none => simp [getD, hf]
  | some v =>
    have := h _ (mem_of_findVal_eq_some hf)
    simp only [getD, hf, Option.getD_some]
    exact this

theorem applyRules_fst_val_le_one {l s : LifeBuffer}
    (hs : ∀ d, getD s d ≤ 1) :
    ∀ e ∈ (applyRules l s).1, e.2 ≤ 1 := by
  induction l generalizing s with
  | nil => simp [applyRules]
  | cons e rest ih =>
    simp only [applyRules]
    by_cases h1 : e.2 ≤ 1
    · rw [if_pos h1]
      intro x hx
      rcases List.mem_cons.1 hx with hh | hh
      · simp [hh]
      · exact ih hs x hh
    · rw [if_neg h1]
      by_cases h3 : e.2 = 3
      · rw [if_pos h3]
        intro x hx
        rcases List.mem_cons.1 hx with hh | hh
        · simp [hh]
        · exact ih hs x hh
      · rw [if_neg h3]
        by_cases h4 : 4 ≤ e.2
        · rw [if_pos h4]
          intro x hx
          rcases List.mem_cons.1 hx with hh | hh
          · simp [hh]
          · exact ih hs x hh
        · rw [if_neg h4]
          intro x hx
          have hs2 : ∀ d, getD (indexRead s e.1).2 d ≤ 1 := by
            intro d
            rw [getD_indexRead]
            exact hs d
          rcases List.mem_cons.1 hx with hh | hh
          · rw [hh]
            simp only [indexRead_fst]
            exact hs e.1
          · exact ih hs2 x hh

/-! ### The age tracker -/

theorem hasKey_filter_keyPred (age : LifeBuffer) (p : LifeCoord → Bool)
    (c : LifeCoord) :
    hasKey (age.filter (fun e => p e.1)) c = (hasKey age c && p c) := by
  induction age with
  | nil => simp [hasKey, findVal]
  | cons e rest ih =>
    by_cases hp : p e.1 = true
    · rw [List.filter_cons_of_pos (by simpa using hp)]
      by_cases hc : e.1 = c
      · subst hc
        simp [hasKey, findVal, hp]
      · simp only [hasKey, findVal, if_neg hc] at ih ⊢
        exact ih
    · rw [List.filter_cons_of_neg (by simpa using hp)]
      by_cases hc : e.1 = c
      · subst hc
        rw [ih]
        have hb : p e.1 = false := by
          revert hp
          cases p e.1 <;> simp
        simp [hasKey, findVal, hb]
      · simp only [hasKey, findVal, if_neg hc]
        exact ih

theorem findVal_filter_of_pred_true (age : LifeBuffer) (p : LifeCoord → Bool)
    {c : LifeCoord} (hp : p c = true) :
    findVal (age.filter (fun e => p e.1)) c = findVal age c := by
  induction age with
  | nil => simp
  | cons e rest ih =>
    by_cases hc : e.1 = c
    · subst hc
      rw [List.filter_cons_of_pos (by simpa using hp)]
      simp [findVal]
    · by_cases hpe : p e.1 = true
      · rw [List.filter_cons_of_pos (by simpa using hpe)]
        simp only [findVal, if_neg hc]
        exact ih
      · rw [List.filter_cons_of_neg (by simpa using hpe)]
        simp only [findVal, if_neg hc]
        exact ih

theorem advanceAge_eq_foldl_keys (age cur : LifeBuffer) :
    advanceAge age cur =
      (cur.map Prod.fst).foldl bump (age.filter (fun e => hasKey cur e.1)) := by
  rw [advanceAge, List.foldl_map]

theorem hasKey_advanceAge (age cur : LifeBuffer) (c : LifeCoord) :
    hasKey (advanceAge age cur) c = hasKey cur c := by
  rw [advanceAge_eq_foldl_keys, hasKey_foldl_bump, hasKey_filter_keyPred]
  by_cases hk : hasKey cur c = true
  · simp only [hk, Bool.and_true]
    simp
    exact Or.inr ⟨getD cur c,
      mem_of_findVal_eq_some (findVal_eq_some_of_hasKey hk)⟩
  · have hb : hasKey cur c = false := by
      revert hk
      cases hasKey cur c <;> simp
    have hmem : c ∉ cur.map Prod.fst := fun hm =>
      hk ((hasKey_iff_mem_keys cur c).2 hm)
    simp only [hb, Bool.and_false, Bool.false_or]
    simp
    exact fun x hx => hmem (List.mem_map.2 ⟨(c, x), hx, rfl⟩)

theorem getD_advanceAge (age cur : LifeBuffer) (c : LifeCoord)
    (hnd : (cur.map Prod.fst).Nodup) :
    getD (advanceAge age cur) c =
      if hasKey cur c = true then getD age c + 1 else 0 := by
  rw [advanceAge_eq_foldl_keys, getD_foldl_bump]
  by_cases hk : hasKey cur c = true
  · rw [if_pos hk]
    have hmem : c ∈ cur.map Prod.fst := (hasKey_iff_mem_keys cur c).1 hk
    rw [coordCount_eq_one_of_nodup_mem hnd hmem]
    rw [getD, findVal_filter_of_pred_true age (fun d => hasKey cur d) hk]
    rfl
  · rw [if_neg hk]
    have hb : hasKey cur c = false := by
      revert hk
      cases hasKey cur c <;> simp
    have hmem : c ∉ cur.map Prod.fst := fun hm =>
      hk ((hasKey_iff_mem_keys cur c).2 hm)
    rw [coordCount_eq_zero_of_not_mem hmem]
    have hfk : hasKey (age.filter (fun e => hasKey cur e.1)) c = false := by
      rw [hasKey_filter_keyPred, hb, Bool.and_false]
    rw [getD, findVal_eq_none_of_not_hasKey hfk]
    rfl

theorem nodupKeys_advanceSim_fst (db : LifeDBuffer) :
    ((advanceSim db).1.map Prod.fst).Nodup := by
  rw [show (advanceSim db).1 = (applyRules (countNeighbors db.1) db.1).1 from
    rfl, applyRules_fst_keys]
  exact nodupKeys_countNeighbors _

/-! ### Claim theorems: the simulation step -/

/-- C1: for every double buffer whose current-generation entries all have
    value 0 or 1 (with unique, on-grid keys), after one `advanceSim` a grid
    coordinate has value 1 in the new current buffer iff it had exactly 3
    live toroidal neighbors in the prior generation, or it was alive there
    with exactly 2 live neighbors; every other coordinate is 0 or absent,
    and a coordinate with zero live neighbors (in particular an isolated
    live cell) gets no scratch entry at all. -/
theorem c1_advanceSim_conway_step (db : LifeDBuffer)
    (hnd : (db.1.map Prod.fst).Nodup)
    (hval : ∀ e ∈ db.1, e.2 ≤ 1)
    (hin : ∀ e ∈ db.1, inGrid e.1)
    (c : LifeCoord) (hc1 : c.1 < 512) (hc2 : c.2 < 384) :
    (findVal (advanceSim db).1 c = some 1 ↔
      (liveNbrs db.1 c = 3 ∨ (getD db.1 c = 1 ∧ liveNbrs db.1 c = 2))) ∧
    (∀ v, findVal (advanceSim db).1 c = some v → v = 0 ∨ v = 1) ∧
    (liveNbrs db.1 c = 0 → findVal (advanceSim db).1 c = none) := by
  have hCS : contribSum db.1 c = liveNbrs db.1 c :=
    contribSum_eq_liveNbrs hnd hin ⟨hc1, hc2⟩
  have hprior : getD db.1 c ≤ 1 := getD_le_one_of_entries hval c
  have hfv : findVal (advanceSim db).1 c =
      (findVal (countNeighbors db.1) c).map
        (fun n => ruleVal n (getD db.1 c)) :=
    applyRules_fst_findVal _ _ _
  rw [findVal_countNeighbors, hCS] at hfv
  refine ⟨?_, ?_, ?_⟩
  · by_cases h0 : liveNbrs db.1 c = 0
    · rw [hfv, if_pos h0]
      constructor
      · intro hcontra
        exact absurd hcontra (by simp)
      · intro hcontra
        rcases hcontra with h | ⟨_, h⟩ <;> omega
    · rw [hfv, if_neg h0]
      simp only [Option.map_some', Option.some.injEq, ruleVal]
      split_ifs <;>
        (try simp only [false_iff, eq_self_iff_true, true_iff, not_or,
          not_and]) <;>
        omega
  · intro v hv
    rw [hfv] at hv
    by_cases h0 : liveNbrs db.1 c = 0
    · rw [if_pos h0] at hv
      exact absurd hv (by simp)
    · rw [if_neg h0] at hv
      simp only [Option.map_some', Option.some.injEq, ruleVal] at hv
      rw [← hv]
      split_ifs <;> omega
  · intro h0
    rw [hfv, if_pos h0]
    rfl

/-- C1 witness: the blinker instantiation at coordinate (4, 6), which is
    born with exactly three live neighbors. -/
theorem c1_witness :
    (findVal (advanceSim blinkerDB).1 (4, 6) = some 1 ↔
      (liveNbrs blinkerDB.1 (4, 6) = 3 ∨
        (getD blinkerDB.1 (4, 6) = 1 ∧ liveNbrs blinkerDB.1 (4, 6) = 2))) ∧
    (∀ v, findVal (advanceSim blinkerDB).1 (4, 6) = some v → v = 0 ∨ v = 1) ∧
    (liveNbrs blinkerDB.1 (4, 6) = 0 →
      findVal (advanceSim blinkerDB).1 (4, 6) = none) :=
  c1_advanceSim_conway_step blinkerDB (by decide) (by decide) (by decide)
    (4, 6) (by decide) (by decide)

/-- C2: in the rule-application pass, a scratch entry with accumulated count
    `n` is stored as 0 when `n ≤ 1`, 1 when `n = 3`, 0 when `n ≥ 4`, and the
    prior value (read from the previous-generation buffer, 0 when absent)
    verbatim when `n = 2`. -/
theorem c2_rule_pass (db : LifeDBuffer) (c : LifeCoord) (n : Nat)
    (h : findVal (countNeighbors db.1) c = some n) :
    findVal (advanceSim db).1 c =
      some (if n ≤ 1 then 0 else if n = 3 then 1 else if 4 ≤ n then 0
            else getD db.1 c) := by
  have hh := applyRules_fst_findVal (countNeighbors db.1) db.1 c
  rw [h] at hh
  exact hh

/-- C2 witness: the blinker's scratch entry at (4, 6) has count 3 and is
    stored as 1. -/
theorem c2_witness :
    findVal (advanceSim blinkerDB).1 (4, 6) =
      some (if 3 ≤ 1 then 0 else if 3 = 3 then 1 else if 4 ≤ 3 then 0
            else getD blinkerDB.1 (4, 6)) :=
  c2_rule_pass blinkerDB (4, 6) 3 (by decide)

/-! ### Claim theorems: the age tracker -/

/-- C3: after `advanceAge age current`, the key set of the age map equals the
    key set of `current` exactly. -/
theorem c3_advanceAge_key_set (age current : LifeBuffer) (c : LifeCoord) :
    hasKey (advanceAge age current) c = hasKey current c :=
  hasKey_advanceAge age current c

/-- C4 counterexample: starting from a single live cell at (5, 5), after one
    update frame coordinate (4, 4) is dead (it has a stale zero entry and
    was also dead initially), yet its age entry is 1 — so the age map does
    not count consecutive generations ALIVE. -/
theorem c4_counterexample :
    getD (runState singleCellDB 1).2 (4, 4) = 1 ∧
    getD (runState singleCellDB 1).1.1 (4, 4) = 0 ∧
    getD singleCellDB.1 (4, 4) = 0 := by decide

/-- C4 amended: the age entry of a coordinate equals the number of
    consecutive generations (ending now) during which it has been a KEY of
    the current buffer — including stale zero-valued (dead) entries — and
    after any frame the age map's key set is the current buffer's key set. -/
theorem c4_age_counts_key_presence (db0 : LifeDBuffer) (c : LifeCoord)
    (n : Nat) :
    getD (runState db0 n).2 c = keyStreak db0 c n ∧
    (0 < n →
      hasKey (runState db0 n).2 c = hasKey (runState db0 n).1.1 c) := by
  induction n with
  | zero => exact ⟨rfl, fun h => absurd h (by omega)⟩
  | succ n ih =>
    have hnd : (((advanceSim (runState db0 n).1).1).map Prod.fst).Nodup :=
      nodupKeys_advanceSim_fst _
    constructor
    · rw [show (runState db0 (n + 1)).2 =
        advanceAge (runState db0 n).2 (advanceSim (runState db0 n).1).1 from
        rfl]
      rw [getD_advanceAge _ _ _ hnd]
      rw [show keyStreak db0 c (n + 1) =
        (if hasKey (runState db0 (n + 1)).1.1 c then keyStreak db0 c n + 1
          else 0) from rfl]
      rw [show (runState db0 (n + 1)).1.1 =
        (advanceSim (runState db0 n).1).1 from rfl]
      by_cases hk : hasKey (advanceSim (runState db0 n).1).1 c = true
      · rw [if_pos hk, if_pos hk, ih.1]
      · rw [if_neg hk, if_neg hk]
    · intro _
      rw [show (runState db0 (n + 1)).2 =
        advanceAge (runState db0 n).2 (advanceSim (runState db0 n).1).1 from
        rfl]
      exact hasKey_advanceAge _ _ _

/-- C4 witness: the amended statement instantiated for the single-cell
    start, coordinate (4, 4), one frame. -/
theorem c4_witness :
    getD (runState singleCellDB 1).2 (4, 4) = keyStreak singleCellDB (4, 4) 1 ∧
    hasKey (runState singleCellDB 1).2 (4, 4) =
      hasKey (runState singleCellDB 1).1.1 (4, 4) :=
  ⟨(c4_age_counts_key_presence singleCellDB (4, 4) 1).1,
   (c4_age_counts_key_presence singleCellDB (4, 4) 1).2 (by decide)⟩

/-! ### Claim theorems: mutation of the previous-generation buffer -/

/-- C10 counterexample: for a single live cell at (5, 5), the scratch
    coordinate (4, 4) (present in the new current buffer) is NOT inserted
    into the previous-generation buffer — its neighbor count is 1, not 2,
    so the rule pass never reads `second[(4,4)]`. -/
theorem c10_counterexample :
    hasKey (advanceSim singleCellDB).1 (4, 4) = true ∧
    hasKey (advanceSim singleCellDB).2 (4, 4) = false := by decide

/-- C10 amended: the rule pass inserts a zero entry into the
    previous-generation buffer exactly for the scratch coordinates with
    accumulated count 2 that are not already present; no stored value of
    that buffer changes, so its value function (hence its live set) is
    unchanged. -/
theorem c10_snd_buffer_effect (db : LifeDBuffer) (d : LifeCoord) :
    getD (advanceSim db).2 d = getD db.1 d ∧
    (0 < getD (advanceSim db).2 d ↔ 0 < getD db.1 d) ∧
    (hasKey (advanceSim db).2 d = true ↔
      hasKey db.1 d = true ∨ (d, 2) ∈ countNeighbors db.1) := by
  refine ⟨applyRules_snd_getD _ _ _, ?_, applyRules_snd_hasKey _ _ _⟩
  rw [show getD (advanceSim db).2 d = getD db.1 d from
    applyRules_snd_getD _ _ _]

/-! ### Claim theorems: coordinate wraparound -/

/-- C5: the unsigned evaluation of `(delta + c + DIM) % DIM` equals the
    mathematical non-negative residue of `delta + c` modulo `DIM` for both
    grid dimensions, every in-range component and every delta in
    {-1, 0, 1}; consequently a live cell at `(0, y)` counts
    `(W-1, (y-1) mod H)` among its eight neighbor targets. -/
theorem c5_wrap_mod :
    (∀ dim : Nat, (dim = 512 ∨ dim = 384) → ∀ c : Nat, c < dim →
      ∀ delta : Int, (delta = -1 ∨ delta = 0 ∨ delta = 1) →
      wrapCoord delta c dim = ((delta + (c : Int)) % (dim : Int)).toNat) ∧
    (∀ y : Nat, y < 384 →
      ((511 : Nat), (((y : Int) - 1) % 384).toNat) ∈ neighborTargets (0, y)) := by
  constructor
  · rintro dim (rfl | rfl) c hc delta (rfl | rfl | rfl) <;>
      simp only [wrapCoord, UINT_MOD] <;> omega
  · intro y hy
    refine List.mem_map.2 ⟨(-1, -1), by simp [NEIGHBOR_DELTAS], ?_⟩
    simp only [X_GRID_eq, Y_GRID_eq]
    rw [Prod.mk.injEq]
    refine ⟨?_, ?_⟩
    · rw [wrapCoord_512]
      omega
    · rw [wrapCoord_384_small (Or.inl rfl) hy]
      omega

/-- C5 witness: the instantiation at `dim = 512`, `c = 0`, `delta = -1`,
    and the wrap neighbor of `(0, 0)`. -/
theorem c5_witness :
    wrapCoord (-1) 0 512 = (((-1 : Int) + ((0 : Nat) : Int)) % (512 : Int)).toNat ∧
    ((511 : Nat), ((((0 : Nat) : Int) - 1) % 384).toNat) ∈ neighborTargets (0, 0) :=
  ⟨c5_wrap_mod.1 512 (Or.inl rfl) 0 (by decide) (-1) (Or.inl rfl),
   c5_wrap_mod.2 0 (by decide)⟩

/-! ### Claim theorems: buffer values stay 0/1 -/

theorem setVal_val_le_one {g : LifeBuffer} (h : ∀ e ∈ g, e.2 ≤ 1)
    {c : LifeCoord} {v : Nat} (hv : v ≤ 1) :
    ∀ e ∈ setVal g c v, e.2 ≤ 1 := by
  induction g with
  | nil =>
    intro e he
    rcases List.mem_singleton.1 he with rfl
    exact hv
  | cons a t ih =>
    intro e he
    by_cases ha : a.1 = c
    · rw [setVal, if_pos ha] at he
      rcases List.mem_cons.1 he with rfl | hh
      · exact hv
      · exact h e (List.mem_cons_of_mem _ hh)
    · rw [setVal, if_neg ha] at he
      rcases List.mem_cons.1 he with rfl | hh
      · exact h e (List.mem_cons_self _ _)
      · exact ih (fun x hx => h x (List.mem_cons_of_mem _ hx)) e hh

theorem dropRow_val_le_one (x y : Nat) (yp xstep : Int)
    (chars : List Char) :
    ∀ (g : LifeBuffer) (xp : Int), (∀ e ∈ g, e.2 ≤ 1) →
      ∀ e ∈ dropRow x y yp xstep g xp chars, e.2 ≤ 1 := by
  induction chars with
  | nil =>
    intro g xp h e he
    exact h e he
  | cons ch rest ih =>
    intro g xp h e he
    rw [dropRow] at he
    refine ih _ _ (setVal_val_le_one h ?_) e he
    by_cases hch : ch = 'X' <;> simp [hch]

theorem dropRows_val_le_one (x y : Nat) (xstep ystep : Int) (p : Pattern) :
    ∀ (g : LifeBuffer) (yp : Int), (∀ e ∈ g, e.2 ≤ 1) →
      ∀ e ∈ dropRows x y xstep ystep g yp p, e.2 ≤ 1 := by
  induction p with
  | nil =>
    intro g yp h e he
    exact h e he
  | cons row rest ih =>
    intro g yp h e he
    rw [dropRows] at he
    exact ih _ _ (dropRow_val_le_one x y yp xstep row g 0 h) e he

/-- C9: after `advanceSim` every entry of the new current buffer is 0 or 1
    (provided the prior generation's entries were 0 or 1), and `dropPattern`
    writes only 0 or 1, so its result keeps all entries at 0 or 1. -/
theorem c9_values_le_one :
    (∀ db : LifeDBuffer, (∀ e ∈ db.1, e.2 ≤ 1) →
      ∀ e ∈ (advanceSim db).1, e.2 ≤ 1) ∧
    (∀ (g : LifeBuffer) (x y : Nat) (p : Pattern) (rot : Nat),
      (∀ e ∈ g, e.2 ≤ 1) → ∀ e ∈ dropPattern g x y p rot, e.2 ≤ 1) := by
  constructor
  · intro db h
    exact applyRules_fst_val_le_one (getD_le_one_of_entries h)
  · intro g x y p rot h
    exact dropRows_val_le_one x y _ _ p g 0 h

/-- C9 witness: an entry of the advanced blinker buffer and an entry written
    by a one-cell pattern stamp. -/
theorem c9_witness :
    (((4 : Nat), (6 : Nat)), (1 : Nat)).2 ≤ 1 ∧
    (((0 : Nat), (0 : Nat)), (1 : Nat)).2 ≤ 1 :=
  ⟨c9_values_le_one.1 blinkerDB (by decide) ((4, 6), 1) (by decide),
   c9_values_le_one.2 [] 0 0 [['X']] 3 (by decide) ((0, 0), 1) (by decide)⟩

/-! ### Characterization of dropPattern -/

theorem dropRow_frame (x y : Nat) (yp xstep : Int) (chars : List Char) :
    ∀ (g : LifeBuffer) (xp : Int) (d : LifeCoord),
      (∀ j : Nat, j < chars.length →
        (wrapCoord (xp + xstep * j) x 512, wrapCoord yp y 384) ≠ d) →
      findVal (dropRow x y yp xstep g xp chars) d = findVal g d := by
  induction chars with
  | nil =>
    intro g xp d _
    rfl
  | cons ch rest ih =>
    intro g xp d h
    rw [dropRow]
    have h0 : (wrapCoord xp x 512, wrapCoord yp y 384) ≠ d := by
      have hh := h 0 (by simp)
      have harg : xp + xstep * ((0 : Nat) : Int) = xp := by
        push_cast
        ring
      rw [harg] at hh
      exact hh
    have hrest : ∀ j : Nat, j < rest.length →
        (wrapCoord ((xp + xstep) + xstep * j) x 512, wrapCoord yp y 384) ≠ d := by
      intro j hj
      have harg : (xp + xstep) + xstep * (j : Int) =
          xp + xstep * ((j + 1 : Nat) : Int) := by
        push_cast
        ring
      rw [harg]
      exact h (j + 1) (by simpa using Nat.succ_lt_succ hj)
    rw [ih _ _ _ hrest]
    exact findVal_setVal_ne g _ (Ne.symm h0)

theorem dropRow_write (x y : Nat) (yp xstep : Int) (chars : List Char) :
    ∀ (g : LifeBuffer) (xp : Int) (j : Nat), j < chars.length →
      (∀ i : Nat, i < chars.length → i ≠ j →
        wrapCoord (xp + xstep * i) x 512 ≠ wrapCoord (xp + xstep * j) x 512) →
      findVal (dropRow x y yp xstep g xp chars)
          (wrapCoord (xp + xstep * j) x 512, wrapCoord yp y 384) =
        some (if chars.getD j ' ' = 'X' then 1 else 0) := by
  induction chars with
  | nil =>
    intro g xp j hj _
    exact absurd hj (by simp)
  | cons ch rest ih =>
    intro g xp j hj hinj
    rw [dropRow]
    rcases j with _ | j'
    · have hx0 : xp + xstep * ((0 : Nat) : Int) = xp := by
        push_cast
        ring
      rw [hx0]
      have hframe : ∀ i : Nat, i < rest.length →
          (wrapCoord ((xp + xstep) + xstep * i) x 512, wrapCoord yp y 384) ≠
            (wrapCoord xp x 512, wrapCoord yp y 384) := by
        intro i hi heq
        have harg : (xp + xstep) + xstep * (i : Int) =
            xp + xstep * ((i + 1 : Nat) : Int) := by
          push_cast
          ring
        rw [harg] at heq
        have hxeq := congrArg Prod.fst heq
        simp only [] at hxeq
        have hxj := hinj (i + 1) (by simpa using Nat.succ_lt_succ hi)
          (by omega)
        rw [hx0] at hxj
        exact hxj hxeq
      rw [dropRow_frame x y yp xstep rest _ _ _ hframe]
      exact findVal_setVal_self g _ _
    · have harg : ∀ m : Nat, (xp + xstep) + xstep * (m : Int) =
          xp + xstep * ((m + 1 : Nat) : Int) := by
        intro m
        push_cast
        ring
      have hrw : xp + xstep * ((j' + 1 : Nat) : Int) =
          (xp + xstep) + xstep * ((j' : Nat) : Int) := (harg j').symm
      rw [show ((Nat.succ j' : Nat) : Int) = ((j' + 1 : Nat) : Int) from rfl,
        hrw]
      have hj' : j' < rest.length := by simpa using Nat.lt_of_succ_lt_succ hj
      have hinj' : ∀ i : Nat, i < rest.length → i ≠ j' →
          wrapCoord ((xp + xstep) + xstep * i) x 512 ≠
            wrapCoord ((xp + xstep) + xstep * j') x 512 := by
        intro i hi hne
        rw [harg i, harg j']
        exact hinj (i + 1) (by simpa using Nat.succ_lt_succ hi) (by omega)
      exact ih _ (xp + xstep) j' hj' hinj'

theorem dropRows_frame (x y : Nat) (xstep ystep : Int) (p : Pattern) :
    ∀ (g : LifeBuffer) (yp : Int) (d : LifeCoord),
      (∀ r k : Nat, r < p.length → k < (p.getD r []).length →
        (wrapCoord (xstep * k) x 512,
          wrapCoord (yp + ystep * r) y 384) ≠ d) →
      findVal (dropRows x y xstep ystep g yp p) d = findVal g d := by
  induction p with
  | nil =>
    intro g yp d _
    rfl
  | cons row rest ih =>
    intro g yp d h
    rw [dropRows]
    have hrest : ∀ r k : Nat, r < rest.length → k < (rest.getD r []).length →
        (wrapCoord (xstep * k) x 512,
          wrapCoord ((yp + ystep) + ystep * r) y 384) ≠ d := by
      intro r k hr hk
      have harg : (yp + ystep) + ystep * (r : Int) =
          yp + ystep * ((r + 1 : Nat) : Int) := by
        push_cast
        ring
      rw [harg]
      exact h (r + 1) k (by simpa using Nat.succ_lt_succ hr) hk
    rw [ih _ _ _ hrest]
    apply dropRow_frame x y yp xstep row g 0 d
    intro j hjl
    have hargx : (0 : Int) + xstep * (j : Int) = xstep * (j : Int) := by ring
    rw [hargx]
    have harg0 : yp + ystep * ((0 : Nat) : Int) = yp := by
      push_cast
      ring
    have hh := h 0 j (by simp) (by simpa using hjl)
    rw [harg0] at hh
    exact hh

theorem dropRows_write (x y : Nat) (xstep ystep : Int) (p : Pattern) :
    ∀ (g : LifeBuffer) (yp : Int) (r k : Nat), r < p.length →
      k < (p.getD r []).length →
      (∀ r2 : Nat, r2 < p.length → r2 ≠ r →
        wrapCoord (yp + ystep * r2) y 384 ≠
          wrapCoord (yp + ystep * r) y 384) →
      (∀ i : Nat, i < (p.getD r []).length → i ≠ k →
        wrapCoord (xstep * i) x 512 ≠ wrapCoord (xstep * k) x 512) →
      findVal (dropRows x y xstep ystep g yp p)
          (wrapCoord (xstep * k) x 512, wrapCoord (yp + ystep * r) y 384) =
        some (if (p.getD r []).getD k ' ' = 'X' then 1 else 0) := by
  induction p with
  | nil =>
    intro g yp r k hr _ _ _
    exact absurd hr (by simp)
  | cons row rest ih =>
    intro g yp r k hr hk hyinj hxinj
    rw [dropRows]
    have hargy : ∀ m : Nat, (yp + ystep) + ystep * (m : Int) =
        yp + ystep * ((m + 1 : Nat) : Int) := by
      intro m
      push_cast
      ring
    have hargy0 : yp + ystep * ((0 : Nat) : Int) = yp := by
      push_cast
      ring
    rcases r with _ | r'
    · rw [hargy0]
      have hframe : ∀ r2 k2 : Nat, r2 < rest.length →
          k2 < (rest.getD r2 []).length →
          (wrapCoord (xstep * k2) x 512,
            wrapCoord ((yp + ystep) + ystep * r2) y 384) ≠
            (wrapCoord (xstep * k) x 512, wrapCoord yp y 384) := by
        intro r2 k2 hr2 _ heq
        have hyeq := congrArg Prod.snd heq
        simp only [] at hyeq
        rw [hargy r2] at hyeq
        have hy2 := hyinj (r2 + 1) (by simpa using Nat.succ_lt_succ hr2)
          (by omega)
        rw [hargy0] at hy2
        exact hy2 hyeq
      rw [dropRows_frame x y xstep ystep rest _ _ _ hframe]
      have hx0 : ∀ i : Nat, (0 : Int) + xstep * (i : Int) = xstep * i := by
        intro i
        ring
      have hw := dropRow_write x y yp xstep row g 0 k (by simpa using hk)
        (by
          intro i hi hne
          rw [hx0 i, hx0 k]
          exact hxinj i (by simpa using hi) hne)
      rw [hx0 k] at hw
      exact hw
    · have hrw : yp + ystep * ((Nat.succ r' : Nat) : Int) =
          (yp + ystep) + ystep * ((r' : Nat) : Int) := (hargy r').symm
      rw [hrw]
      have hr' : r' < rest.length := by simpa using Nat.lt_of_succ_lt_succ hr
      apply ih _ (yp + ystep) r' k hr' (by simpa using hk)
      · intro r2 hr2 hne
        rw [hargy r2, hargy r']
        exact hyinj (r2 + 1) (by simpa using Nat.succ_lt_succ hr2) (by omega)
      · intro i hi hne
        exact hxinj i (by simpa using hi) hne

theorem strideX_eq (rotate : Nat) :
    strideX rotate = 1 ∨ strideX rotate = -1 := by
  unfold strideX
  split_ifs <;> simp

theorem strideY_eq (rotate : Nat) :
    strideY rotate = 1 ∨ strideY rotate = -1 := by
  unfold strideY
  split_ifs <;> simp

theorem wrap512_mul_inj {sx : Int} (hsx : sx = 1 ∨ sx = -1) {x i k : Nat}
    (hi : i < 512) (hk : k < 512) (hne : i ≠ k) :
    wrapCoord (sx * i) x 512 ≠ wrapCoord (sx * k) x 512 := by
  rcases hsx with rfl | rfl <;>
    rw [wrapCoord_512, wrapCoord_512] <;> intro h <;> omega

theorem wrap384_mul_inj {sy : Int} (hsy : sy = 1 ∨ sy = -1) {y r2 r : Nat}
    (hy : y < 384) (h2 : r2 < 384) (hrr : r < 384) (hne : r2 ≠ r) :
    wrapCoord (0 + sy * r2) y 384 ≠ wrapCoord (0 + sy * r) y 384 := by
  rcases hsy with rfl | rfl
  · rw [wrapCoord_384_range (by push_cast; omega)
        (by simp only [UINT_MOD]; push_cast; omega),
      wrapCoord_384_range (by push_cast; omega)
        (by simp only [UINT_MOD]; push_cast; omega)]
    intro h
    omega
  · rw [wrapCoord_384_range (by push_cast; omega)
        (by simp only [UINT_MOD]; push_cast; omega),
      wrapCoord_384_range (by push_cast; omega)
        (by simp only [UINT_MOD]; push_cast; omega)]
    intro h
    omega

theorem wrap_dest_eq_mdest {x y : Nat} {sx sy : Int} (hsx : sx = 1 ∨ sx = -1)
    (hsy : sy = 1 ∨ sy = -1) {r k : Nat} (hr : r < 384) (hy : y < 384) :
    (wrapCoord (sx * k) x 512, wrapCoord (0 + sy * r) y 384) =
      mdest x y sx sy r k := by
  rw [mdest, Prod.mk.injEq]
  constructor
  · rw [wrapCoord_512]
    rcases hsx with rfl | rfl <;> omega
  · rcases hsy with rfl | rfl
    · rw [wrapCoord_384_range (by push_cast; omega)
        (by simp only [UINT_MOD]; push_cast; omega)]
      omega
    · rw [wrapCoord_384_range (by push_cast; omega)
        (by simp only [UINT_MOD]; push_cast; omega)]
      omega

set_option maxRecDepth 4000 in
/-- C6 counterexample to the claim as stated: for a pattern with 386 rows
    (385 empty rows, then a single 'X'), origin (0, 0) and rotation 1
    (sx = +1, sy = -1), the claimed destination of the 'X' at row 385 is
    (0, (0 - 385) mod 384) = (0, 383), but the unsigned wrap computes row
    255; the claimed cell stays empty. -/
theorem c6_counterexample :
    mdest 0 0 (strideX 1) (strideY 1) 385 0 = ((0 : Nat), (383 : Nat)) ∧
    findVal (dropPattern [] 0 0 (List.replicate 385 [] ++ [['X']]) 1)
      (0, 383) = none ∧
    findVal (dropPattern [] 0 0 (List.replicate 385 [] ++ [['X']]) 1)
      (0, 255) = some 1 := by decide

theorem dropPattern_characterization (grid : LifeBuffer) (x y : Nat) (p : Pattern)
    (rotate : Nat) (hy : y < 384) (hrows : p.length ≤ 384)
    (hcols : ∀ row ∈ p, row.length ≤ 512) :
    (∀ r k : Nat, r < p.length → k < (p.getD r []).length →
      findVal (dropPattern grid x y p rotate)
          (mdest x y (strideX rotate) (strideY rotate) r k) =
        some (if (p.getD r []).getD k ' ' = 'X' then 1 else 0)) ∧
    (∀ d : LifeCoord,
      (∀ r k : Nat, r < p.length → k < (p.getD r []).length →
        mdest x y (strideX rotate) (strideY rotate) r k ≠ d) →
      findVal (dropPattern grid x y p rotate) d = findVal grid d) := by
  have hsx := strideX_eq rotate
  have hsy := strideY_eq rotate
  have hdp : dropPattern grid x y p rotate =
      dropRows x y (strideX rotate) (strideY rotate) grid 0 p := rfl
  constructor
  · intro r k hr hk
    have hrowlen : (p.getD r []).length ≤ 512 := by
      have hg : p.getD r [] = p.get ⟨r, hr⟩ := List.getD_eq_get p [] hr
      rw [hg]
      exact hcols _ (p.get_mem _ _)
    have hw := dropRows_write x y (strideX rotate) (strideY rotate) p grid 0
      r k hr hk
      (fun r2 hr2 hne => wrap384_mul_inj hsy hy (by omega) (by omega) hne)
      (fun i hi hne => wrap512_mul_inj hsx (by omega) (by omega) hne)
    rw [← wrap_dest_eq_mdest hsx hsy (by omega) hy, hdp]
    exact hw
  · intro d hd
    rw [hdp]
    apply dropRows_frame
    intro r k hr hk
    rw [wrap_dest_eq_mdest hsx hsy (by omega) hy]
    exact hd r k hr hk

/-- C6 amended: provided the origin row is on the grid (`y < H`), the
    pattern has at most H rows and each row at most W characters,
    `dropPattern` stores, for the character at row `r` and column `k`, the
    value 1 if it is 'X' and 0 otherwise at the destination
    `((x + sx*k) mod W, (y + sy*r) mod H)` (mathematical residues, strides
    from the rotation bits), overwriting any pre-existing value; and every
    coordinate that is no character's destination keeps its prior entry. -/
theorem c6_dropPattern_writes (grid : LifeBuffer) (x y : Nat) (p : Pattern)
    (rotate : Nat) (hy : y < 384) (hrows : p.length ≤ 384)
    (hcols : ∀ row ∈ p, row.length ≤ 512) :
    (∀ r k : Nat, r < p.length → k < (p.getD r []).length →
      findVal (dropPattern grid x y p rotate)
          (mdest x y (strideX rotate) (strideY rotate) r k) =
        some (if (p.getD r []).getD k ' ' = 'X' then 1 else 0)) ∧
    (∀ d : LifeCoord,
      (∀ r k : Nat, r < p.length → k < (p.getD r []).length →
        mdest x y (strideX rotate) (strideY rotate) r k ≠ d) →
      findVal (dropPattern grid x y p rotate) d = findVal grid d) :=
  dropPattern_characterization grid x y p rotate hy hrows hcols

/-- C6 witness: a 2x2 pattern stamped at (5, 5) with rotation 0; the
    character at row 0, column 1 lands at its claimed destination, and an
    untouched faraway cell keeps its (absent) entry. -/
theorem c6_witness :
    findVal (dropPattern [] 5 5 [['X', 'o'], ['o', 'X']] 0)
        (mdest 5 5 (strideX 0) (strideY 0) 0 1) =
      some (if (([['X', 'o'], ['o', 'X']].getD 0 [])).getD 1 ' ' = 'X'
            then 1 else 0) ∧
    findVal (dropPattern [] 5 5 [['X', 'o'], ['o', 'X']] 0) (100, 100) =
      findVal [] (100, 100) :=
  ⟨(c6_dropPattern_writes [] 5 5 [['X', 'o'], ['o', 'X']] 0 (by decide)
      (by decide) (by decide)).1 0 1 (by decide) (by decide),
   (c6_dropPattern_writes [] 5 5 [['X', 'o'], ['o', 'X']] 0 (by decide)
      (by decide) (by decide)).2 (100, 100) (by
        intro r k hr hk
        have hr2 : r < 2 := hr
        interval_cases r
        · have hk2 : k < 2 := hk
          interval_cases k <;> decide
        · have hk2 : k < 2 := hk
          interval_cases k <;> decide)⟩

/-! ### Mirrored stamping (rotation 0 vs rotation 3) -/

theorem mdest_fst_lt (x y : Nat) (sx sy : Int) (r k : Nat) :
    (mdest x y sx sy r k).1 < 512 := by
  simp only [mdest]
  omega

theorem mdest_snd_lt (x y : Nat) (sx sy : Int) (r k : Nat) :
    (mdest x y sx sy r k).2 < 384 := by
  simp only [mdest]
  omega

theorem reflectCoord_involutive {x y : Nat} {c : LifeCoord}
    (h1 : c.1 < 512) (h2 : c.2 < 384) :
    reflectCoord x y (reflectCoord x y c) = c := by
  rcases c with ⟨c1, c2⟩
  simp only [reflectCoord, Prod.mk.injEq]
  constructor <;> omega

theorem mdest_reflect (x y : Nat) (r k : Nat) :
    mdest x y (-1) (-1) r k = reflectCoord x y (mdest x y 1 1 r k) := by
  simp only [mdest, reflectCoord, Prod.mk.injEq]
  constructor <;> omega

theorem dropPattern_live_iff (x y : Nat) (p : Pattern) (rotate : Nat)
    (hy : y < 384) (hrows : p.length ≤ 384)
    (hcols : ∀ row ∈ p, row.length ≤ 512) (c : LifeCoord) :
    getD (dropPattern [] x y p rotate) c ≠ 0 ↔
      ∃ r k : Nat, r < p.length ∧ k < (p.getD r []).length ∧
        mdest x y (strideX rotate) (strideY rotate) r k = c ∧
        (p.getD r []).getD k ' ' = 'X' := by
  have hch := dropPattern_characterization [] x y p rotate hy hrows hcols
  constructor
  · intro hne
    by_cases hex : ∃ r k : Nat, r < p.length ∧ k < (p.getD r []).length ∧
        mdest x y (strideX rotate) (strideY rotate) r k = c
    · obtain ⟨r, k, hr, hk, hdest⟩ := hex
      refine ⟨r, k, hr, hk, hdest, ?_⟩
      have hw := hch.1 r k hr hk
      rw [hdest] at hw
      by_cases hX : (p.getD r []).getD k ' ' = 'X'
      · exact hX
      · rw [if_neg hX] at hw
        exact absurd (by rw [getD, hw]; rfl) hne
    · have hfr := hch.2 c (fun r k hr hk heq => hex ⟨r, k, hr, hk, heq⟩)
      exact absurd (by rw [getD, hfr]; rfl) hne
  · rintro ⟨r, k, hr, hk, hdest, hX⟩
    have hw := hch.1 r k hr hk
    rw [hdest, if_pos hX] at hw
    rw [getD, hw]
    simp

set_option maxRecDepth 4000 in
/-- C7 counterexample to the claim as stated: for the non-symmetric
    386-row pattern with an 'X' in row 0 and "XX" in row 385, at origin
    (0, 0), the cell (0, 255) is stamped live by rotation 0, but its point
    reflection through the origin, (0, 129), is not stamped by rotation 3 —
    the unsigned wrap of row -385 lands at 255, not at (0-385) mod 384. -/
theorem c7_counterexample :
    getD (dropPattern [] 0 0 ([['X']] ++ List.replicate 384 [] ++ [['X', 'X']]) 0)
      (0, 255) ≠ 0 ∧
    reflectCoord 0 0 (0, 255) = ((0 : Nat), (129 : Nat)) ∧
    getD (dropPattern [] 0 0 ([['X']] ++ List.replicate 384 [] ++ [['X', 'X']]) 3)
      (0, 129) = 0 := by decide

/-- C7 amended: for every pattern that fits the grid (origin row `y < H`,
    at most H rows, each row at most W characters) and every on-grid
    coordinate, the cell is stamped live by rotation 0 iff its point
    reflection through the origin (modulo the grid dimensions) is stamped
    live by rotation 3. -/
theorem c7_mirror_rotations (x y : Nat) (p : Pattern) (hy : y < 384)
    (hrows : p.length ≤ 384) (hcols : ∀ row ∈ p, row.length ≤ 512)
    (c : LifeCoord) (hc1 : c.1 < 512) (hc2 : c.2 < 384) :
    getD (dropPattern [] x y p 0) c ≠ 0 ↔
      getD (dropPattern [] x y p 3) (reflectCoord x y c) ≠ 0 := by
  rw [dropPattern_live_iff x y p 0 hy hrows hcols c,
    dropPattern_live_iff x y p 3 hy hrows hcols (reflectCoord x y c)]
  have hs0x : strideX 0 = -1 := by decide
  have hs0y : strideY 0 = -1 := by decide
  have hs3x : strideX 3 = 1 := by decide
  have hs3y : strideY 3 = 1 := by decide
  rw [hs0x, hs0y, hs3x, hs3y]
  constructor
  · rintro ⟨r, k, hr, hk, hdest, hX⟩
    refine ⟨r, k, hr, hk, ?_, hX⟩
    rw [mdest_reflect] at hdest
    have himg := congrArg (reflectCoord x y) hdest
    rw [reflectCoord_involutive (mdest_fst_lt x y 1 1 r k)
      (mdest_snd_lt x y 1 1 r k)] at himg
    exact himg
  · rintro ⟨r, k, hr, hk, hdest, hX⟩
    refine ⟨r, k, hr, hk, ?_, hX⟩
    rw [mdest_reflect, hdest]
    exact reflectCoord_involutive hc1 hc2

/-- C7 witness: an asymmetric 2-row pattern at origin (5, 5): the cell
    stamped by rotation 0 at (5, 5) corresponds through the reflection to
    the rotation-3 stamp. -/
theorem c7_witness :
    getD (dropPattern [] 5 5 [['X', 'o'], ['o', 'X']] 0) (5, 5) ≠ 0 ↔
      getD (dropPattern [] 5 5 [['X', 'o'], ['o', 'X']] 3)
        (reflectCoord 5 5 (5, 5)) ≠ 0 :=
  c7_mirror_rotations 5 5 [['X', 'o'], ['o', 'X']] (by decide) (by decide)
    (by decide) (5, 5) (by decide) (by decide)

/-! ### The 2x2 block is a fixed point -/

theorem mem_blockCoords_iff (x y : Nat) (a b : Nat) :
    (a, b) ∈ blockCoords x y ↔
      ((a = x ∨ a = x + 1) ∧ (b = y ∨ b = y + 1)) := by
  simp only [blockCoords, List.mem_cons, List.not_mem_nil, or_false,
    Prod.mk.injEq]
  constructor
  · rintro (⟨h1, h2⟩ | ⟨h1, h2⟩ | ⟨h1, h2⟩ | ⟨h1, h2⟩) <;>
      exact ⟨by omega, by omega⟩
  · rintro ⟨(h1 | h1), (h2 | h2)⟩ <;> subst h1 <;> subst h2 <;> simp

theorem block_neighbor_rule (x y : Nat) (hx : x + 1 < 512)
    (hy : y + 1 < 384) {c1 c2 : Nat} (hc1 : c1 < 512) (hc2 : c2 < 384) :
    ((neighborTargets (c1, c2)).countP
        (fun d => decide (d ∈ blockCoords x y)) = 3 ∨
      ((c1, c2) ∈ blockCoords x y ∧
        (neighborTargets (c1, c2)).countP
          (fun d => decide (d ∈ blockCoords x y)) = 2)) ↔
      (c1, c2) ∈ blockCoords x y := by
  rw [neighborTargets_inGrid hc1 hc2]
  simp only [List.countP_cons, List.countP_nil, decide_eq_true_eq,
    mem_blockCoords_iff, Nat.zero_add]
  by_cases hA0 : (c1 + 511) % 512 = x ∨ (c1 + 511) % 512 = x + 1 <;>
  by_cases hAc : c1 = x ∨ c1 = x + 1 <;>
  by_cases hA1 : (c1 + 1) % 512 = x ∨ (c1 + 1) % 512 = x + 1 <;>
  by_cases hB0 : (c2 + 383) % 384 = y ∨ (c2 + 383) % 384 = y + 1 <;>
  by_cases hBc : c2 = y ∨ c2 = y + 1 <;>
  by_cases hB1 : (c2 + 1) % 384 = y ∨ (c2 + 1) % 384 = y + 1 <;>
    (try simp [hA0, hAc, hA1, hB0, hBc, hB1]) <;>
    omega

theorem inGrid_of_contribSum_pos {b : LifeBuffer} {c : LifeCoord}
    (h : 0 < contribSum b c) : inGrid c := by
  induction b with
  | nil => simp [contribSum] at h
  | cons e t ih =>
    rw [contribSum, List.map_cons, List.sum_cons] at h
    by_cases hz : e.2 = 0
    · rw [if_pos hz] at h
      exact ih (by rw [contribSum]; omega)
    · rw [if_neg hz] at h
      by_cases hrest : 0 < contribSum t c
      · exact ih hrest
      · have hcnt : 0 < coordCount (neighborTargets e.1) c := by
          rw [contribSum] at hrest
          omega
        exact inGrid_of_mem_neighborTargets (coordCount_pos_iff.1 hcnt)

theorem advanceSim_fst_inGrid (db : LifeDBuffer) :
    ∀ e ∈ (advanceSim db).1, inGrid e.1 := by
  intro e he
  have hkeys : (advanceSim db).1.map Prod.fst =
      (countNeighbors db.1).map Prod.fst := applyRules_fst_keys _ _
  have hmemk : e.1 ∈ (countNeighbors db.1).map Prod.fst := by
    rw [← hkeys]
    exact List.mem_map.2 ⟨e, he, rfl⟩
  have hk : hasKey (countNeighbors db.1) e.1 = true :=
    (hasKey_iff_mem_keys _ _).2 hmemk
  exact inGrid_of_contribSum_pos ((hasKey_countNeighbors _ _).1 hk)

theorem block_step (x y : Nat) (hx : x + 1 < 512) (hy : y + 1 < 384)
    (db : LifeDBuffer)
    (hnd : (db.1.map Prod.fst).Nodup)
    (hval : ∀ e ∈ db.1, e.2 ≤ 1)
    (hin : ∀ e ∈ db.1, inGrid e.1)
    (hlive : ∀ c : LifeCoord, getD db.1 c = 1 ↔ c ∈ blockCoords x y) :
    ((advanceSim db).1.map Prod.fst).Nodup ∧
    (∀ e ∈ (advanceSim db).1, e.2 ≤ 1) ∧
    (∀ e ∈ (advanceSim db).1, inGrid e.1) ∧
    (∀ c : LifeCoord, getD (advanceSim db).1 c = 1 ↔ c ∈ blockCoords x y) := by
  refine ⟨nodupKeys_advanceSim_fst db,
    applyRules_fst_val_le_one (getD_le_one_of_entries hval),
    advanceSim_fst_inGrid db, ?_⟩
  intro c
  by_cases hc : inGrid c
  · rcases c with ⟨c1, c2⟩
    have hCS : contribSum db.1 (c1, c2) = liveNbrs db.1 (c1, c2) :=
      contribSum_eq_liveNbrs hnd hin hc
    have hfv : findVal (advanceSim db).1 (c1, c2) =
        (findVal (countNeighbors db.1) (c1, c2)).map
          (fun n => ruleVal n (getD db.1 (c1, c2))) :=
      applyRules_fst_findVal _ _ _
    rw [findVal_countNeighbors, hCS] at hfv
    have hLN : liveNbrs db.1 (c1, c2) =
        (neighborTargets (c1, c2)).countP
          (fun d => decide (d ∈ blockCoords x y)) := by
      unfold liveNbrs
      apply List.countP_congr
      intro d _
      simp only [decide_eq_true_eq]
      have hle : getD db.1 d ≤ 1 := getD_le_one_of_entries hval d
      have hld := hlive d
      constructor
      · intro hne
        exact hld.1 (by omega)
      · intro hmemb
        have := hld.2 hmemb
        omega
    have hrule := @block_neighbor_rule x y hx hy c1 c2 hc.1 hc.2
    rw [← hLN] at hrule
    rw [getD, hfv]
    by_cases h0 : liveNbrs db.1 (c1, c2) = 0
    · rw [if_pos h0]
      simp only [Option.map_none', Option.getD_none]
      constructor
      · intro h01
        exact absurd h01 (by omega)
      · intro hm
        rcases hrule.2 hm with h3 | ⟨_, h2⟩ <;> omega
    · rw [if_neg h0]
      simp only [Option.map_some', Option.getD_some]
      by_cases hm : (c1, c2) ∈ blockCoords x y
      · simp only [hm, iff_true]
        have hprior1 : getD db.1 (c1, c2) = 1 := (hlive _).2 hm
        rcases hrule.2 hm with h3 | ⟨_, h2⟩ <;>
          (unfold ruleVal; split_ifs <;> omega)
      · simp only [hm, iff_false]
        have hN3 : liveNbrs db.1 (c1, c2) ≠ 3 :=
          fun h3 => hm (hrule.1 (Or.inl h3))
        have hpr : getD db.1 (c1, c2) ≠ 1 :=
          fun h1 => hm ((hlive _).1 h1)
        have hle : getD db.1 (c1, c2) ≤ 1 := getD_le_one_of_entries hval _
        unfold ruleVal
        split_ifs
        · exact not_false
        · exact not_false
        · exact hpr
  · have hnone : findVal (advanceSim db).1 c = none := by
      apply findVal_eq_none_of_not_mem_keys
      intro hmemk
      have hkeys : (advanceSim db).1.map Prod.fst =
          (countNeighbors db.1).map Prod.fst := applyRules_fst_keys _ _
      rw [hkeys] at hmemk
      have hk : hasKey (countNeighbors db.1) c = true :=
        (hasKey_iff_mem_keys _ _).2 hmemk
      exact hc (inGrid_of_contribSum_pos ((hasKey_countNeighbors _ _).1 hk))
    rw [getD, hnone]
    simp only [Option.getD_none]
    constructor
    · intro h01
      exact absurd h01 (by omega)
    · intro hm
      rcases c with ⟨c1, c2⟩
      rw [mem_blockCoords_iff] at hm
      exact absurd (⟨by omega, by omega⟩ : inGrid (c1, c2)) hc

theorem blockBuf_invariant (x y : Nat) (hx : x + 1 < 512)
    (hy : y + 1 < 384) (n : Nat) :
    (((advanceSim^[n] (blockBuf x y, ([] : LifeBuffer))).1.map
        Prod.fst).Nodup) ∧
    (∀ e ∈ (advanceSim^[n] (blockBuf x y, ([] : LifeBuffer))).1, e.2 ≤ 1) ∧
    (∀ e ∈ (advanceSim^[n] (blockBuf x y, ([] : LifeBuffer))).1,
      inGrid e.1) ∧
    (∀ c : LifeCoord,
      getD (advanceSim^[n] (blockBuf x y, ([] : LifeBuffer))).1 c = 1 ↔
        c ∈ blockCoords x y) := by
  induction n with
  | zero =>
    refine ⟨?_, ?_, ?_, ?_⟩
    · simp only [Function.iterate_zero, id_eq, blockBuf, List.map_cons,
        List.map_nil]
      simp [List.nodup_cons, not_or, Prod.mk.injEq] <;> omega
    · intro e he
      simp only [Function.iterate_zero, id_eq, blockBuf, List.mem_cons,
        List.not_mem_nil, or_false] at he
      rcases he with rfl | rfl | rfl | rfl <;> exact le_rfl
    · intro e he
      simp only [Function.iterate_zero, id_eq, blockBuf, List.mem_cons,
        List.not_mem_nil, or_false] at he
      rcases he with rfl | rfl | rfl | rfl <;>
        refine ⟨?_, ?_⟩ <;> simp <;> omega
    · intro c
      rcases c with ⟨c1, c2⟩
      simp only [Function.iterate_zero, id_eq]
      rw [mem_blockCoords_iff]
      simp only [blockBuf, getD, findVal]
      split_ifs with h1 h2 h3 h4
      · simp only [Prod.mk.injEq] at h1
        simp only [Option.getD_some, eq_self_iff_true, true_iff]
        omega
      · simp only [Prod.mk.injEq] at h2
        simp only [Option.getD_some, eq_self_iff_true, true_iff]
        omega
      · simp only [Prod.mk.injEq] at h3
        simp only [Option.getD_some, eq_self_iff_true, true_iff]
        omega
      · simp only [Prod.mk.injEq] at h4
        simp only [Option.getD_some, eq_self_iff_true, true_iff]
        omega
      · simp only [Prod.mk.injEq] at h1 h2 h3 h4
        simp only [Option.getD_none]
        constructor
        · intro h01
          exact absurd h01 (by omega)
        · intro hm
          omega
  | succ n ih =>
    rw [Function.iterate_succ_apply']
    exact block_step x y hx hy _ ih.1 ih.2.1 ih.2.2.1 ih.2.2.2

/-- C8: a 2x2 block anchored at an interior-compatible `(x, y)` is a fixed
    point of the simulation step: for every `n`, after `n` applications of
    `advanceSim` starting from exactly those four live cells, the set of
    coordinates with value 1 is still exactly the four block coordinates. -/
theorem c8_block_fixed_point (x y : Nat) (hx : x + 1 < 512)
    (hy : y + 1 < 384) (n : Nat) (c : LifeCoord) :
    getD (advanceSim^[n] (blockBuf x y, ([] : LifeBuffer))).1 c = 1 ↔
      c ∈ blockCoords x y :=
  (blockBuf_invariant x y hx hy n).2.2.2 c

/-- C8 witness: the block at (3, 4) after two steps, at coordinate (3, 4)
    and at the empty coordinate (0, 0). -/
theorem c8_witness :
    (getD (advanceSim^[2] (blockBuf 3 4, ([] : LifeBuffer))).1 (3, 4) = 1 ↔
      (3, 4) ∈ blockCoords 3 4) ∧
    (getD (advanceSim^[2] (blockBuf 3 4, ([] : LifeBuffer))).1 (0, 0) = 1 ↔
      (0, 0) ∈ blockCoords 3 4) :=
  ⟨c8_block_fixed_point 3 4 (by decide) (by decide) 2 (3, 4),
   c8_block_fixed_point 3 4 (by decide) (by decide) 2 (0, 0)⟩

end GameOfLife
